import Mathlib

/-!
Shallow embedding of the rambo media-file renaming tool.

The program discovers files via a glob pattern, extracts a creation
timestamp from media metadata (EXIF or container track data), and renames
each file to a formatted timestamp.  External effects (the glob engine,
the filesystem, the metadata parser, the strftime formatter) are modelled
as explicit oracle inputs; all program logic is translated directly from
the Rust source:
  - file-name/extension manipulation mirrors Rust `std::path`
    (`set_file_name`, `extension`, `set_extension`, `file_stem`);
  - `rename_file` mirrors src/rambo/src/rename.rs;
  - the extraction dispatch mirrors src/rambo/src/extract.rs;
  - `evaluate_files_from_glob_pattern` mirrors src/src/glob.rs;
  - `run` mirrors src/rambo/src/lib.rs.

The file is organised as definitions first, then lemmas and the claim
theorems.
-/

namespace Rambo

/-! ### ASCII lower-casing, as in `OsStr::to_ascii_lowercase` -/

/-- ASCII lower-casing of a single character: codepoints 65-90 (A-Z) are
shifted by 32 to a-z, everything else is unchanged (Rust
`u8::to_ascii_lowercase`, equivalently `Char.toLower`). -/
def asciiLowerChar (c : Char) : Char :=
  if 65 ≤ c.toNat ∧ c.toNat ≤ 90 then Char.ofNat (c.toNat + 32) else c

/-- ASCII lower-casing of a character list (`to_ascii_lowercase` on an `OsStr`). -/
def asciiLower (s : List Char) : List Char := s.map asciiLowerChar

/-! ### File names: stem and extension, as in Rust `std::path`

Rust splits a file name at its last `.`:
  - no `.` at all, or the only `.` is the leading character, means the whole
    name is the stem and there is no extension;
  - otherwise the stem is the portion before the last `.` and the extension
    the (possibly empty) portion after it.
-/

/-- Split a file name into Rust's `file_stem` and `extension`. -/
def splitExt (name : List Char) : List Char × Option (List Char) :=
  let r := name.reverse
  let extR := r.takeWhile (fun c => c != '.')
  if extR.length = r.length then (name, none)
  else
    let rest := r.drop (extR.length + 1)
    if rest.isEmpty then (name, none)
    else (rest.reverse, some extR.reverse)

/-- Rust `Path::file_stem` on a plain file name. -/
def fileStem (name : List Char) : List Char := (splitExt name).1

/-- Rust `Path::extension` on a plain file name. -/
def extOf (name : List Char) : Option (List Char) := (splitExt name).2

/-- Rust `PathBuf::set_extension` at the file-name level: truncate to the stem
and, when the new extension is nonempty, append a dot and the extension. -/
def setExtName (name : List Char) (ext : List Char) : List Char :=
  if ext.isEmpty then fileStem name else fileStem name ++ '.' :: ext

/-! ### Paths and the rename engine (src/rambo/src/rename.rs) -/

/-- A canonical path: the rendered parent-directory prefix (including its
trailing separator) and the final file-name component.  Equality is
byte-for-byte equality of the rendered path, as for Rust `PathBuf`. -/
structure RPath where
  parent : List Char
  fileName : List Char
deriving DecidableEq, Repr

/-- The full rendered path string (what `as_os_str` yields). -/
def RPath.render (p : RPath) : List Char := p.parent ++ p.fileName

/-- `PathBuf::set_file_name` for a path that already has a file name:
replace the final component. -/
def set_file_name (p : RPath) (name : List Char) : RPath :=
  { p with fileName := name }

/-- `PathBuf::set_extension`: replace the extension of the final component. -/
def set_extension (p : RPath) (ext : List Char) : RPath :=
  { p with fileName := setExtName p.fileName ext }

/-- The target path constructed by `rename_file`: clone the source, set the
file name to the desired stem, and if the source had an extension set the
target extension to the ASCII-lower-cased source extension. -/
def new_file_path_buf (file_path_buf : RPath) (new_file_name_without_extension : List Char) : RPath :=
  let p1 := set_file_name file_path_buf new_file_name_without_extension
  match extOf file_path_buf.fileName with
  | some ext => set_extension p1 (asciiLower ext)
  | none => p1

/-- The three statistics counters (src/rambo/src/statistics.rs). -/
structure Statistics where
  skipped_files : Nat
  failed_files : Nat
  renamed_files : Nat
deriving DecidableEq, Repr

/-- `Statistics::new()` = `Statistics::default()`: all counters zero. -/
def Statistics.new : Statistics :=
  { skipped_files := 0, failed_files := 0, renamed_files := 0 }

/-- Sum of the three counters. -/
def Statistics.sum (s : Statistics) : Nat :=
  s.skipped_files + s.failed_files + s.renamed_files

/-- Componentwise order: no counter decreased. -/
def Statistics.le (s t : Statistics) : Prop :=
  s.skipped_files ≤ t.skipped_files ∧ s.failed_files ≤ t.failed_files ∧
    s.renamed_files ≤ t.renamed_files

instance (s t : Statistics) : Decidable (s.le t) := by
  unfold Statistics.le
  infer_instance

/-- Terminal outcome of the rename engine for one file. -/
inductive Outcome where
  | Skipped
  | Renamed
  | Failed
deriving DecidableEq, Repr

/-- A filesystem call attempted by the program: `std::fs::rename(src, tgt)`. -/
inductive FsOp where
  | rename (src tgt : RPath)
deriving DecidableEq, Repr

/-- `rename_file` from src/rambo/src/rename.rs.  The filesystem is an oracle:
`renameOk` tells whether `std::fs::rename` would succeed if called.  Returns
the outcome, the updated statistics, and the list of filesystem calls made. -/
def rename_file (file_path_buf : RPath) (new_file_name_without_extension : List Char)
    (is_dry_run : Bool) (renameOk : Bool) (statistics : Statistics) :
    Outcome × Statistics × List FsOp :=
  let np := new_file_path_buf file_path_buf new_file_name_without_extension
  if file_path_buf = np then
    (Outcome.Skipped, { statistics with skipped_files := statistics.skipped_files + 1 }, [])
  else if is_dry_run then
    (Outcome.Renamed, { statistics with renamed_files := statistics.renamed_files + 1 }, [])
  else if renameOk then
    (Outcome.Renamed, { statistics with renamed_files := statistics.renamed_files + 1 },
      [FsOp.rename file_path_buf np])
  else
    (Outcome.Failed, { statistics with failed_files := statistics.failed_files + 1 },
      [FsOp.rename file_path_buf np])

/-! ### Metadata extraction (src/rambo/src/extract.rs)

A media resource is modelled by which metadata family it carries
(`has_exif` / `has_track`), and by the result of parsing each family: a
failed parse, or a finite map from tags to present values, each value
carrying what its `as_time()` call yields. -/

/-- A timestamp with a fixed UTC offset (`chrono::DateTime<FixedOffset>`):
the instant in seconds since the epoch and the offset in seconds east. -/
structure DateTime where
  instant : Int
  offset : Int
deriving DecidableEq, Repr

/-- The EXIF tags probed by the program. -/
inductive ExifTag where
  | DateTimeOriginal
  | OffsetTimeOriginal
  | CreateDate
deriving DecidableEq, Repr

/-- The track-info tags probed by the program. -/
inductive TrackInfoTag where
  | CreateDate
deriving DecidableEq, Repr

/-- Parsed EXIF data: for each probed tag, `none` if the tag is absent,
`some v` if present where `v` is what `as_time()` returns on its value. -/
structure Exif where
  dateTimeOriginal : Option (Option DateTime)
  offsetTimeOriginal : Option (Option DateTime)
  createDate : Option (Option DateTime)
deriving DecidableEq, Repr

/-- `Exif::get`. -/
def Exif.get (e : Exif) : ExifTag → Option (Option DateTime)
  | ExifTag.DateTimeOriginal => e.dateTimeOriginal
  | ExifTag.OffsetTimeOriginal => e.offsetTimeOriginal
  | ExifTag.CreateDate => e.createDate

/-- Parsed track info. -/
structure TrackInfo where
  createDate : Option (Option DateTime)
deriving DecidableEq, Repr

/-- `TrackInfo::get`. -/
def TrackInfo.get (t : TrackInfo) : TrackInfoTag → Option (Option DateTime)
  | TrackInfoTag.CreateDate => t.createDate

/-- A media resource as seen by `extract_creation_datetime_from_media_source`:
its capability flags and the outcomes of the two possible parses
(`none` models a parse failure of the underlying metadata stream). -/
structure MediaSource where
  hasExif : Bool
  hasTrack : Bool
  exifParse : Option Exif
  trackParse : Option TrackInfo
deriving DecidableEq, Repr

/-- Extraction errors of src/rambo/src/extract.rs, one per `Err` site. -/
inductive ExtractionError where
  | ParseError
  | TagNotFound
  | TrackTagNotFound
  | NoMetadata
deriving DecidableEq, Repr

/-- `EXIF_TAGS_FOR_CREATION_DATETIME`, in source order. -/
def EXIF_TAGS_FOR_CREATION_DATETIME : List ExifTag :=
  [ExifTag.DateTimeOriginal, ExifTag.OffsetTimeOriginal, ExifTag.CreateDate]

/-- `TRACK_INFO_TAGS_FOR_CREATION_DATETIME`. -/
def TRACK_INFO_TAGS_FOR_CREATION_DATETIME : List TrackInfoTag :=
  [TrackInfoTag.CreateDate]

/-- The tag loop of `extract_creation_datetime_from_exif`: for each tag in
order, if present and `as_time()` parses, return that time; else continue. -/
def probeExifTags (exif : Exif) : List ExifTag → Except ExtractionError DateTime
  | [] => Except.error ExtractionError.TagNotFound
  | t :: ts =>
    match exif.get t with
    | some (some datetime) => Except.ok datetime
    | some none => probeExifTags exif ts
    | none => probeExifTags exif ts

/-- `extract_creation_datetime_from_exif`. -/
def extract_creation_datetime_from_exif (exif : Exif) : Except ExtractionError DateTime :=
  probeExifTags exif EXIF_TAGS_FOR_CREATION_DATETIME

/-- The tag loop of `extract_creation_datetime_from_track_info`. -/
def probeTrackTags (track_info : TrackInfo) : List TrackInfoTag → Except ExtractionError DateTime
  | [] => Except.error ExtractionError.TrackTagNotFound
  | t :: ts =>
    match track_info.get t with
    | some (some datetime) => Except.ok datetime
    | some none => probeTrackTags track_info ts
    | none => probeTrackTags track_info ts

/-- `extract_creation_datetime_from_track_info`. -/
def extract_creation_datetime_from_track_info (track_info : TrackInfo) :
    Except ExtractionError DateTime :=
  probeTrackTags track_info TRACK_INFO_TAGS_FOR_CREATION_DATETIME

/-- `extract_creation_datetime_from_media_source`: dispatch on the metadata
family, EXIF first, then track, else fail with the no-metadata error. -/
def extract_creation_datetime_from_media_source (media_source : MediaSource) :
    Except ExtractionError DateTime :=
  if media_source.hasExif then
    match media_source.exifParse with
    | none => Except.error ExtractionError.ParseError
    | some exif => extract_creation_datetime_from_exif exif
  else if media_source.hasTrack then
    match media_source.trackParse with
    | none => Except.error ExtractionError.ParseError
    | some track_info => extract_creation_datetime_from_track_info track_info
  else
    Except.error ExtractionError.NoMetadata

/-- Modelled from the claim wording: the timestamp of the first tag in the
given order that is present with a parseable time value, if any. -/
def firstParseableTag {τ : Type} (get : τ → Option (Option DateTime)) :
    List τ → Option DateTime
  | [] => none
  | t :: ts =>
    match get t with
    | some (some datetime) => some datetime
    | some none => firstParseableTag get ts
    | none => firstParseableTag get ts

/-! ### Glob evaluation (src/src/glob.rs)

The glob engine is an oracle: a syntactically valid pattern yields a list of
raw results (`Ok(path)` or `Err(GlobError)`), in engine order; each matched
path comes with whether it is a symlink and what canonicalizing it yields. -/

/-- One `Ok` result of the glob iterator, with its filesystem facts. -/
structure GlobMatch where
  path : RPath
  isSymlink : Bool
  canonical : Option RPath
deriving DecidableEq, Repr

/-- One raw result of the glob iterator. -/
inductive GlobResultEntry where
  | ok (m : GlobMatch)
  | err (path : RPath)
deriving DecidableEq, Repr

/-- `GlobEvaluationError`: an underlying glob error, or a canonicalization
failure (the source also carries a description string, which is a formatted
log message derived from the path and the OS error and carries no further
program-visible information). -/
inductive GlobEvaluationError where
  | globError (path : RPath)
  | other (path_buf : RPath)
deriving DecidableEq, Repr

/-- `GlobEvaluationError::path`. -/
def GlobEvaluationError.path : GlobEvaluationError → RPath
  | GlobEvaluationError.globError p => p
  | GlobEvaluationError.other p => p

/-- Byte-wise lexicographic comparison, the `Ord` of `OsString`. -/
def lexLe : List Char → List Char → Bool
  | [], _ => true
  | _ :: _, [] => false
  | a :: as, b :: bs =>
    if a.toNat < b.toNat then true
    else if b.toNat < a.toNat then false
    else lexLe as bs

/-- The sort key of a discovered path: the ASCII-lower-cased path string
(`lowercase_os_str_from_path_buf`). -/
def pathSortKey (p : RPath) : List Char := asciiLower p.render

/-- The comparison used by `paths.sort_by_key(lowercase_os_str_from_path_buf)`. -/
def pathLe (a b : RPath) : Bool := lexLe (pathSortKey a) (pathSortKey b)

/-- The sort key of a discovery error
(`lowercase_os_str_from_glob_evaluation_error`). -/
def errSortKey (e : GlobEvaluationError) : List Char := asciiLower e.path.render

/-- The comparison used by `errors.sort_by_key(...)`. -/
def errLe (a b : GlobEvaluationError) : Bool := lexLe (errSortKey a) (errSortKey b)

/-- The fold body of `evaluate_files_from_glob_pattern`: classify one raw glob
result, pushing either a canonical path or a discovery error, or dropping a
symlink excluded by policy. -/
def globFoldStep (include_symlinks : Bool) (acc : List RPath × List GlobEvaluationError)
    (glob_result : GlobResultEntry) : List RPath × List GlobEvaluationError :=
  match glob_result with
  | GlobResultEntry.ok m =>
    if include_symlinks || !m.isSymlink then
      match m.canonical with
      | some path => (acc.1 ++ [path], acc.2)
      | none => (acc.1, acc.2 ++ [GlobEvaluationError.other m.path])
    else acc
  | GlobResultEntry.err path => (acc.1, acc.2 ++ [GlobEvaluationError.globError path])

/-- `evaluate_files_from_glob_pattern`.  `patternValid` models whether
`glob::glob_with` accepts the pattern string; `globResults` is the engine's
result stream (which already reflects `case_insensitive` matching, an
engine-level option that does not otherwise enter the function's logic). -/
def evaluate_files_from_glob_pattern (patternValid : Bool)
    (globResults : List GlobResultEntry) (case_insensitive : Bool)
    (include_symlinks : Bool) : Option (List RPath × List GlobEvaluationError) :=
  if patternValid then
    let pe := globResults.foldl (globFoldStep include_symlinks) ([], [])
    some (pe.1.mergeSort pathLe, pe.2.mergeSort errLe)
  else none

/-- Modelled from the claim wording: the canonical paths of the matched
entries that are kept (not symlink-excluded) and canonicalize successfully,
in engine order. -/
def keptCanonicalPaths (include_symlinks : Bool) : List GlobResultEntry → List RPath
  | [] => []
  | GlobResultEntry.ok m :: rest =>
    if include_symlinks || !m.isSymlink then
      match m.canonical with
      | some path => path :: keptCanonicalPaths include_symlinks rest
      | none => keptCanonicalPaths include_symlinks rest
    else keptCanonicalPaths include_symlinks rest
  | GlobResultEntry.err _ :: rest => keptCanonicalPaths include_symlinks rest

/-- Modelled from the claim wording: the discovery errors, one per underlying
glob error and one per kept entry that fails to canonicalize, in engine
order. -/
def discoveryErrors (include_symlinks : Bool) : List GlobResultEntry → List GlobEvaluationError
  | [] => []
  | GlobResultEntry.ok m :: rest =>
    if include_symlinks || !m.isSymlink then
      match m.canonical with
      | some _ => discoveryErrors include_symlinks rest
      | none => GlobEvaluationError.other m.path :: discoveryErrors include_symlinks rest
    else discoveryErrors include_symlinks rest
  | GlobResultEntry.err path :: rest =>
    GlobEvaluationError.globError path :: discoveryErrors include_symlinks rest

/-! ### Orchestrator (src/rambo/src/lib.rs `run`) -/

/-- `chrono`'s `with_timezone` on a `DateTime<FixedOffset>`: the same instant,
with the embedded offset replaced. -/
def DateTime.with_timezone (datetime : DateTime) (offset : Int) : DateTime :=
  { instant := datetime.instant, offset := offset }

/-- The local clock value a formatter displays: instant plus offset. -/
def DateTime.localClock (datetime : DateTime) : Int := datetime.instant + datetime.offset

/-- The offset-override application in `run`:
`time_offset.map(|o| datetime.with_timezone(&o)).unwrap_or(datetime)`. -/
def apply_time_offset (time_offset : Option Int) (datetime : DateTime) : DateTime :=
  match time_offset with
  | some offset => datetime.with_timezone offset
  | none => datetime

/-- The configuration record `RamboOptions`, with the externally-determined
facts the run depends on: `patternValid` models whether `glob_with` accepts
the pattern, and `time_offset` models the parse of the offset string
(`none`: option absent; `some none`: present but invalid; `some (some o)`:
parses to offset `o` seconds). -/
structure RamboOptions where
  patternValid : Bool
  no_dry_run : Bool
  case_insensitive : Bool
  time_offset : Option (Option Int)
  include_symlinks : Bool

/-- The environment oracles of one run: current-working-directory lookup,
the glob engine's raw results, per-path filesystem facts, and the opaque
strftime formatter (already specialised to `options.format`). -/
structure RunEnv where
  cwdOk : Bool
  globResults : List GlobResultEntry
  is_file : RPath → Bool
  openResult : RPath → Option MediaSource
  renameOk : RPath → Bool
  fmt : DateTime → List Char

/-- `std::process::ExitCode` outcomes used by the program. -/
inductive ExitCode where
  | SUCCESS
  | FAILURE
deriving DecidableEq, Repr

/-- The loop body of `run` for one discovered plain-file path: open the media
source, extract the creation datetime, apply the offset override, format, and
invoke the rename engine; open and extraction failures increment `failed` and
continue. -/
def process_media_asset (env : RunEnv) (time_offset : Option Int) (is_dry_run : Bool)
    (acc : Statistics × List FsOp) (path : RPath) : Statistics × List FsOp :=
  match env.openResult path with
  | none => ({ acc.1 with failed_files := acc.1.failed_files + 1 }, acc.2)
  | some media_source =>
    match extract_creation_datetime_from_media_source media_source with
    | Except.error _ => ({ acc.1 with failed_files := acc.1.failed_files + 1 }, acc.2)
    | Except.ok datetime =>
      let datetime_formatted := env.fmt (apply_time_offset time_offset datetime)
      let r := rename_file path datetime_formatted is_dry_run (env.renameOk path) acc.1
      (r.2.1, acc.2 ++ r.2.2)

/-- The time-offset configuration step of `run`: `none` means the run aborts
(the offset string was present but invalid); `some t` is the parsed optional
override. -/
def parse_time_offset : Option (Option Int) → Option (Option Int)
  | none => some none
  | some none => none
  | some (some offset) => some (some offset)

/-- The part of `run` after a successful glob evaluation: count discovery
errors into `failed`, handle the two empty-result early returns, then fold
the per-item pipeline over the discovered plain files and derive the exit
code from the final `failed` counter. -/
def run_after_discovery (options : RamboOptions) (env : RunEnv) (time_offset : Option Int)
    (paths : List RPath) (errors : List GlobEvaluationError) :
    ExitCode × Statistics × List FsOp :=
  let statistics := Statistics.new
  let statistics :=
    if !errors.isEmpty then
      { statistics with failed_files := statistics.failed_files + errors.length }
    else statistics
  if paths.isEmpty && errors.isEmpty then (ExitCode.SUCCESS, statistics, [])
  else if paths.isEmpty && !errors.isEmpty then (ExitCode.FAILURE, statistics, [])
  else
    let res := (paths.filter env.is_file).foldl
      (process_media_asset env time_offset (!options.no_dry_run)) (statistics, [])
    (if res.1.failed_files > 0 then ExitCode.FAILURE else ExitCode.SUCCESS, res.1, res.2)

/-- `run` from src/rambo/src/lib.rs: returns the exit code, the final
statistics, and the filesystem calls made. -/
def run (options : RamboOptions) (env : RunEnv) : ExitCode × Statistics × List FsOp :=
  if env.cwdOk = false then (ExitCode.FAILURE, Statistics.new, [])
  else
    match parse_time_offset options.time_offset with
    | none => (ExitCode.FAILURE, Statistics.new, [])
    | some time_offset =>
      match evaluate_files_from_glob_pattern options.patternValid env.globResults
          options.case_insensitive options.include_symlinks with
      | none => (ExitCode.FAILURE, Statistics.new, [])
      | some (paths, errors) => run_after_discovery options env time_offset paths errors

/-- Number of discovered items that enter the rename stage: those that pass
the plain-file filter, open successfully, and extract successfully. -/
def renameStageCount (env : RunEnv) (paths : List RPath) : Nat :=
  (paths.filter env.is_file).countP fun path =>
    match env.openResult path with
    | none => false
    | some media_source =>
      match extract_creation_datetime_from_media_source media_source with
      | Except.ok _ => true
      | Except.error _ => false

/-- A concrete pipeline configuration: apply mode, valid pattern, no offset
override. -/
def c9options : RamboOptions := ⟨true, true, false, none, false⟩

/-- A concrete environment: the glob engine yields one plain file that fails
to open as a media source. -/
def c9env : RunEnv :=
  ⟨true,
   [GlobResultEntry.ok ⟨⟨"/d/".data, "a.jpg".data⟩, false, some ⟨"/d/".data, "a.jpg".data⟩⟩],
   fun _ => true, fun _ => none, fun _ => true, fun _ => []⟩

/-! ### Lemmas about characters and file names -/

theorem toNat_ofNat_valid (n : Nat) (h : n.isValidChar) : (Char.ofNat n).toNat = n := by
  unfold Char.ofNat
  rw [dif_pos h]
  unfold Char.ofNatAux Char.toNat
  simp [UInt32.toNat, BitVec.toNat_ofNatLt]

theorem asciiLowerChar_toNat_of_upper (c : Char) (h : 65 ≤ c.toNat ∧ c.toNat ≤ 90) :
    (asciiLowerChar c).toNat = c.toNat + 32 := by
  unfold asciiLowerChar
  rw [if_pos h]
  apply toNat_ofNat_valid
  exact Or.inl (by omega)

theorem asciiLowerChar_eq_self (c : Char) (h : ¬(65 ≤ c.toNat ∧ c.toNat ≤ 90)) :
    asciiLowerChar c = c := by
  unfold asciiLowerChar
  rw [if_neg h]

theorem asciiLowerChar_not_dot (c : Char) (h : c ≠ '.') : asciiLowerChar c ≠ '.' := by
  by_cases hc : 65 ≤ c.toNat ∧ c.toNat ≤ 90
  · intro hEq
    have h1 := asciiLowerChar_toNat_of_upper c hc
    rw [hEq] at h1
    have : ('.' : Char).toNat = 46 := by decide
    omega
  · rw [asciiLowerChar_eq_self c hc]
    exact h

theorem asciiLowerChar_idem (c : Char) : asciiLowerChar (asciiLowerChar c) = asciiLowerChar c := by
  by_cases hc : 65 ≤ c.toNat ∧ c.toNat ≤ 90
  · have h1 := asciiLowerChar_toNat_of_upper c hc
    apply asciiLowerChar_eq_self
    omega
  · rw [asciiLowerChar_eq_self c hc, asciiLowerChar_eq_self c hc]

theorem asciiLower_idem (s : List Char) : asciiLower (asciiLower s) = asciiLower s := by
  unfold asciiLower
  rw [List.map_map]
  apply List.map_congr_left
  intro c _
  exact asciiLowerChar_idem c

theorem asciiLower_not_dot (s : List Char) (h : '.' ∉ s) : '.' ∉ asciiLower s := by
  unfold asciiLower
  intro hmem
  rcases List.mem_map.mp hmem with ⟨c, hc, hceq⟩
  exact asciiLowerChar_not_dot c (fun hcd => h (hcd ▸ hc)) hceq

theorem asciiLower_eq_nil_iff (s : List Char) : asciiLower s = [] ↔ s = [] := by
  unfold asciiLower
  simp

theorem asciiLower_length (s : List Char) : (asciiLower s).length = s.length := by
  unfold asciiLower
  simp

theorem asciiLower_ne_of_mem_upper (e : List Char) (c : Char) (hc : c ∈ e)
    (hcup : 65 ≤ c.toNat ∧ c.toNat ≤ 90) : asciiLower e ≠ e := by
  intro hEq
  have h2 : e.map asciiLowerChar = e.map id := by
    rw [List.map_id]
    exact hEq
  have h3 := List.map_eq_map_iff.mp h2 c hc
  simp only [id] at h3
  have h4 := asciiLowerChar_toNat_of_upper c hcup
  rw [h3] at h4
  omega

theorem takeWhile_append_stop {p : Char → Bool} (l : List Char) (x : Char) (t : List Char)
    (hl : ∀ c ∈ l, p c = true) (hx : p x = false) :
    (l ++ x :: t).takeWhile p = l := by
  induction l with
  | nil => simp [List.takeWhile_cons, hx]
  | cons a as ih =>
    have ha : p a = true := hl a (List.mem_cons_self a as)
    simp only [List.cons_append, List.takeWhile_cons, ha, if_true]
    rw [ih (fun c hc => hl c (List.mem_cons_of_mem a hc))]

theorem drop_length_succ_append (l : List Char) (x : Char) (t : List Char) :
    (l ++ x :: t).drop (l.length + 1) = t := by
  induction l with
  | nil => simp
  | cons a as ih => simp [ih]

/-- A name with no dot splits into itself with no extension. -/
theorem splitExt_no_dot (name : List Char) (h : '.' ∉ name) :
    splitExt name = (name, none) := by
  have htake : name.reverse.takeWhile (fun c => c != '.') = name.reverse := by
    apply List.takeWhile_eq_self_iff.mpr
    intro c hc
    have : c ∈ name := List.mem_reverse.mp hc
    simp only [bne_iff_ne, ne_eq]
    intro hcd
    exact h (hcd ▸ this)
  simp [splitExt, htake]

/-- Splitting `stem ++ "." ++ ext` with a nonempty stem and a dot-free
extension recovers the two parts: the split happens at the last dot. -/
theorem splitExt_append (a b : List Char) (ha : a ≠ []) (hb : '.' ∉ b) :
    splitExt (a ++ '.' :: b) = (a, some b) := by
  unfold splitExt
  have hrev : (a ++ '.' :: b).reverse = b.reverse ++ '.' :: a.reverse := by
    simp
  have htake : (b.reverse ++ '.' :: a.reverse).takeWhile (fun c => c != '.') = b.reverse := by
    apply takeWhile_append_stop
    · intro c hc
      have : c ∈ b := List.mem_reverse.mp hc
      simp only [bne_iff_ne, ne_eq]
      intro hcd
      exact hb (hcd ▸ this)
    · simp
  have hlen : b.reverse.length ≠ (a ++ '.' :: b).reverse.length := by
    simp only [List.length_reverse, List.length_append, List.length_cons]
    omega
  have hdrop : (b.reverse ++ '.' :: a.reverse).drop (b.reverse.length + 1) = a.reverse :=
    drop_length_succ_append b.reverse '.' a.reverse
  simp only [hrev, htake, hlen, if_false]
  rw [hdrop]
  have : (a.reverse.isEmpty) = false := by
    cases a with
    | nil => exact absurd rfl ha
    | cons x xs => simp
  simp [this]

/-- The extension produced by `splitExt` never contains a dot. -/
theorem extOf_no_dot (name e : List Char) (h : extOf name = some e) : '.' ∉ e := by
  unfold extOf splitExt at h
  by_cases h1 : (name.reverse.takeWhile (fun c => c != '.')).length = name.reverse.length
  · rw [if_pos h1] at h
    simp at h
  · rw [if_neg h1] at h
    by_cases h2 : (name.reverse.drop ((name.reverse.takeWhile (fun c => c != '.')).length + 1)).isEmpty = true
    · rw [if_pos h2] at h
      simp at h
    · rw [if_neg h2] at h
      simp only at h
      have he : e = (name.reverse.takeWhile (fun c => c != '.')).reverse := (Option.some_inj.mp h).symm
      intro hmem
      rw [he] at hmem
      have hmem2 : '.' ∈ name.reverse.takeWhile (fun c => c != '.') := List.mem_reverse.mp hmem
      have := List.mem_takeWhile_imp hmem2
      simp at this

/-- The stem of a nonempty name is nonempty. -/
theorem fileStem_ne_nil (name : List Char) (h : name ≠ []) : fileStem name ≠ [] := by
  unfold fileStem splitExt
  by_cases h1 : (name.reverse.takeWhile (fun c => c != '.')).length = name.reverse.length
  · rw [if_pos h1]
    exact h
  · rw [if_neg h1]
    by_cases h2 : (name.reverse.drop ((name.reverse.takeWhile (fun c => c != '.')).length + 1)).isEmpty = true
    · rw [if_pos h2]
      exact h
    · rw [if_neg h2]
      simp only [ne_eq, List.reverse_eq_nil_iff]
      rw [List.isEmpty_iff] at h2
      exact h2

theorem fileStem_no_dot (name : List Char) (h : '.' ∉ name) : fileStem name = name := by
  unfold fileStem
  rw [splitExt_no_dot name h]

theorem extOf_no_dot_name (name : List Char) (h : '.' ∉ name) : extOf name = none := by
  unfold extOf
  rw [splitExt_no_dot name h]

theorem fileStem_append (a b : List Char) (ha : a ≠ []) (hb : '.' ∉ b) :
    fileStem (a ++ '.' :: b) = a := by
  unfold fileStem
  rw [splitExt_append a b ha hb]

theorem extOf_append (a b : List Char) (ha : a ≠ []) (hb : '.' ∉ b) :
    extOf (a ++ '.' :: b) = some b := by
  unfold extOf
  rw [splitExt_append a b ha hb]

/-- A name with an extension is its stem, a dot, and the extension. -/
theorem splitExt_decomp (name e : List Char) (h : extOf name = some e) :
    name = fileStem name ++ '.' :: e := by
  unfold extOf at h
  unfold fileStem
  unfold splitExt at h ⊢
  by_cases h1 : ((name.reverse.takeWhile (fun c => c != '.')).length = name.reverse.length)
  · rw [if_pos h1] at h
    simp at h
  · rw [if_neg h1] at h ⊢
    by_cases h2 : (name.reverse.drop ((name.reverse.takeWhile (fun c => c != '.')).length + 1)).isEmpty = true
    · rw [if_pos h2] at h
      simp at h
    · rw [if_neg h2] at h ⊢
      simp only at h ⊢
      have he : (name.reverse.takeWhile (fun c => c != '.')).reverse = e := Option.some_inj.mp h
      have hsplit : name.reverse.takeWhile (fun c => c != '.') ++
          name.reverse.dropWhile (fun c => c != '.') = name.reverse :=
        List.takeWhile_append_dropWhile (fun c => c != '.') name.reverse
      have hdw_ne : name.reverse.dropWhile (fun c => c != '.') ≠ [] := by
        intro hnil
        apply h1
        conv_rhs => rw [← hsplit]
        rw [hnil]
        simp
      obtain ⟨c, rest0, hcr⟩ := List.exists_cons_of_ne_nil hdw_ne
      have hc : c = '.' := by
        have hh := List.head?_dropWhile_not (fun c => c != '.') name.reverse
        rw [hcr] at hh
        simp only [List.head?_cons] at hh
        simpa using hh
      have hrdecomp : name.reverse = name.reverse.takeWhile (fun c => c != '.') ++ '.' :: rest0 := by
        conv_lhs => rw [← hsplit]
        rw [hcr, hc]
      have hdrop : name.reverse.drop ((name.reverse.takeWhile (fun c => c != '.')).length + 1) = rest0 := by
        conv_lhs => rw [hrdecomp]
        rw [takeWhile_append_stop _ '.' rest0 (fun c hc => List.mem_takeWhile_imp hc) (by simp)]
        exact drop_length_succ_append _ '.' rest0
      rw [hdrop, ← he]
      conv_lhs => rw [← List.reverse_reverse name, hrdecomp]
      simp

theorem fileStem_length_le (name : List Char) : (fileStem name).length ≤ name.length := by
  unfold fileStem splitExt
  by_cases h1 : ((name.reverse.takeWhile (fun c => c != '.')).length = name.reverse.length)
  · rw [if_pos h1]
  · rw [if_neg h1]
    by_cases h2 : (name.reverse.drop ((name.reverse.takeWhile (fun c => c != '.')).length + 1)).isEmpty = true
    · rw [if_pos h2]
    · rw [if_neg h2]
      simp only [List.length_reverse, List.length_drop]
      omega

/-! ### Lemmas about the constructed target path -/

theorem setExtName_nonempty (s x : List Char) (hx : x ≠ []) :
    setExtName s x = fileStem s ++ '.' :: x := by
  unfold setExtName
  rw [if_neg (by simp [hx])]

theorem setExtName_nil (s : List Char) : setExtName s [] = fileStem s := by
  unfold setExtName
  simp

theorem extOf_setExtName (s x : List Char) (hs : s ≠ []) (hx : x ≠ []) (hxd : '.' ∉ x) :
    extOf (setExtName s x) = some x := by
  rw [setExtName_nonempty s x hx]
  exact extOf_append (fileStem s) x (fileStem_ne_nil s hs) hxd

theorem new_file_path_buf_of_ext_none (p : RPath) (s : List Char)
    (h : extOf p.fileName = none) : new_file_path_buf p s = ⟨p.parent, s⟩ := by
  simp [new_file_path_buf, set_file_name, h]

theorem new_file_path_buf_of_ext_some (p : RPath) (s e : List Char)
    (h : extOf p.fileName = some e) :
    new_file_path_buf p s = ⟨p.parent, setExtName s (asciiLower e)⟩ := by
  simp [new_file_path_buf, set_file_name, set_extension, h]

/-- Re-deriving the target from an already-renamed file with the same desired
stem gives the same path again, provided the stem is nonempty and either the
stem is dot-free or the source extension is nonempty. -/
theorem new_file_path_buf_idem (p : RPath) (s : List Char) (hs : s ≠ [])
    (hcond : '.' ∉ s ∨ ∃ e, extOf p.fileName = some e ∧ e ≠ []) :
    new_file_path_buf (new_file_path_buf p s) s = new_file_path_buf p s := by
  cases hext : extOf p.fileName with
  | none =>
    have hsd : '.' ∉ s := by
      rcases hcond with h | ⟨e, he, _⟩
      · exact h
      · rw [hext] at he
        exact absurd he (by simp)
    rw [new_file_path_buf_of_ext_none p s hext]
    apply new_file_path_buf_of_ext_none
    exact extOf_no_dot_name s hsd
  | some e =>
    rw [new_file_path_buf_of_ext_some p s e hext]
    by_cases he : e = []
    · subst he
      have hsd : '.' ∉ s := by
        rcases hcond with h | ⟨e', he', hne⟩
        · exact h
        · rw [hext] at he'
          exact absurd (Option.some_inj.mp he').symm hne
      have : asciiLower [] = [] := rfl
      rw [this, setExtName_nil, fileStem_no_dot s hsd]
      apply new_file_path_buf_of_ext_none
      exact extOf_no_dot_name s hsd
    · have hle : asciiLower e ≠ [] := fun hc => he ((asciiLower_eq_nil_iff e).mp hc)
      have hled : '.' ∉ asciiLower e := asciiLower_not_dot e (extOf_no_dot p.fileName e hext)
      have hext2 : extOf (setExtName s (asciiLower e)) = some (asciiLower e) :=
        extOf_setExtName s (asciiLower e) hs hle hled
      rw [new_file_path_buf_of_ext_some ⟨p.parent, setExtName s (asciiLower e)⟩ s
        (asciiLower e) hext2]
      rw [asciiLower_idem]

/-! ### Lemmas about extraction -/

theorem probeExifTags_eq_firstParseable (exif : Exif) (tags : List ExifTag) :
    probeExifTags exif tags =
      match firstParseableTag exif.get tags with
      | some datetime => Except.ok datetime
      | none => Except.error ExtractionError.TagNotFound := by
  induction tags with
  | nil => rfl
  | cons t ts ih =>
    unfold probeExifTags firstParseableTag
    cases exif.get t with
    | none => exact ih
    | some v => cases v with
      | none => exact ih
      | some d => rfl

theorem probeTrackTags_eq_firstParseable (track_info : TrackInfo) (tags : List TrackInfoTag) :
    probeTrackTags track_info tags =
      match firstParseableTag track_info.get tags with
      | some datetime => Except.ok datetime
      | none => Except.error ExtractionError.TrackTagNotFound := by
  induction tags with
  | nil => rfl
  | cons t ts ih =>
    unfold probeTrackTags firstParseableTag
    cases track_info.get t with
    | none => exact ih
    | some v => cases v with
      | none => exact ih
      | some d => rfl

/-! ### Lemmas about the sort comparison and the glob fold -/

theorem lexLe_cons (a b : Char) (as bs : List Char) :
    lexLe (a :: as) (b :: bs) =
      (if a.toNat < b.toNat then true
       else if b.toNat < a.toNat then false
       else lexLe as bs) := rfl

theorem lexLe_trans : ∀ (x y z : List Char),
    lexLe x y = true → lexLe y z = true → lexLe x z = true
  | [], _, _, _, _ => rfl
  | _ :: _, [], _, hxy, _ => by simp [lexLe] at hxy
  | _ :: _, _ :: _, [], _, hyz => by simp [lexLe] at hyz
  | a :: as, b :: bs, c :: cs, hxy, hyz => by
    rw [lexLe_cons] at hxy hyz ⊢
    by_cases hab : a.toNat < b.toNat
    · by_cases hbc : b.toNat < c.toNat
      · rw [if_pos (by omega)]
      · rw [if_neg hbc] at hyz
        by_cases hcb : c.toNat < b.toNat
        · rw [if_pos hcb] at hyz
          exact absurd hyz (by simp)
        · rw [if_pos (by omega)]
    · rw [if_neg hab] at hxy
      by_cases hba : b.toNat < a.toNat
      · rw [if_pos hba] at hxy
        exact absurd hxy (by simp)
      · rw [if_neg hba] at hxy
        by_cases hbc : b.toNat < c.toNat
        · rw [if_pos (by omega)]
        · rw [if_neg hbc] at hyz
          by_cases hcb : c.toNat < b.toNat
          · rw [if_pos hcb] at hyz
            exact absurd hyz (by simp)
          · rw [if_neg hcb] at hyz
            rw [if_neg (by omega), if_neg (by omega)]
            exact lexLe_trans as bs cs hxy hyz

theorem lexLe_total : ∀ (x y : List Char), lexLe x y = true ∨ lexLe y x = true
  | [], _ => Or.inl rfl
  | _ :: _, [] => Or.inr rfl
  | a :: as, b :: bs => by
    rw [lexLe_cons, lexLe_cons]
    by_cases hab : a.toNat < b.toNat
    · left
      rw [if_pos hab]
    · by_cases hba : b.toNat < a.toNat
      · right
        rw [if_pos hba]
      · rw [if_neg hab, if_neg hba, if_neg hba, if_neg hab]
        exact lexLe_total as bs

theorem pathLe_trans (a b c : RPath) (h1 : pathLe a b = true) (h2 : pathLe b c = true) :
    pathLe a c = true :=
  lexLe_trans (pathSortKey a) (pathSortKey b) (pathSortKey c) h1 h2

theorem pathLe_total (a b : RPath) : (pathLe a b || pathLe b a) = true := by
  rcases lexLe_total (pathSortKey a) (pathSortKey b) with h | h <;> simp [pathLe, h]

theorem errLe_trans (a b c : GlobEvaluationError) (h1 : errLe a b = true)
    (h2 : errLe b c = true) : errLe a c = true :=
  lexLe_trans (errSortKey a) (errSortKey b) (errSortKey c) h1 h2

theorem errLe_total (a b : GlobEvaluationError) : (errLe a b || errLe b a) = true := by
  rcases lexLe_total (errSortKey a) (errSortKey b) with h | h <;> simp [errLe, h]

/-- `mergeSort` of a two-element list compares the two elements once. -/
theorem mergeSort_pair {α : Type} (a b : α) (le : α → α → Bool) :
    List.mergeSort [a, b] le = if le a b then [a, b] else [b, a] := by
  simp [List.mergeSort, List.merge]

/-! ### Lemmas about rename and the pipeline fold -/

theorem rename_file_dry_no_ops (p : RPath) (s : List Char) (ok : Bool) (st : Statistics) :
    (rename_file p s true ok st).2.2 = [] := by
  simp only [rename_file]
  by_cases h : p = new_file_path_buf p s
  · rw [if_pos h]
  · rw [if_neg h]
    simp

theorem process_fold_dry_no_ops (env : RunEnv) (toff : Option Int) (paths : List RPath)
    (acc : Statistics × List FsOp) :
    (paths.foldl (process_media_asset env toff true) acc).2 = acc.2 := by
  induction paths generalizing acc with
  | nil => rfl
  | cons p rest ih =>
    rw [List.foldl_cons, ih]
    cases h : env.openResult p with
    | none => simp [process_media_asset, h]
    | some ms =>
      cases hx : extract_creation_datetime_from_media_source ms with
      | error e => simp [process_media_asset, h, hx]
      | ok dt => simp [process_media_asset, h, hx, rename_file_dry_no_ops]

/-! ### Lemmas about statistics accounting -/

theorem Statistics.le_refl (s : Statistics) : s.le s := by
  unfold Statistics.le
  exact ⟨Nat.le_refl _, Nat.le_refl _, Nat.le_refl _⟩

theorem Statistics.le_trans (s t u : Statistics) (h1 : s.le t) (h2 : t.le u) : s.le u := by
  unfold Statistics.le at h1 h2 ⊢
  exact ⟨Nat.le_trans h1.1 h2.1, Nat.le_trans h1.2.1 h2.2.1, Nat.le_trans h1.2.2 h2.2.2⟩

theorem rename_file_sum (p : RPath) (s : List Char) (dry ok : Bool) (st : Statistics) :
    (rename_file p s dry ok st).2.1.sum = st.sum + 1 := by
  simp only [rename_file]
  by_cases h : p = new_file_path_buf p s
  · rw [if_pos h]
    simp [Statistics.sum]
    omega
  · rw [if_neg h]
    cases dry with
    | true =>
      simp [Statistics.sum]
      omega
    | false =>
      cases ok with
      | true =>
        simp [Statistics.sum]
        omega
      | false =>
        simp [Statistics.sum]
        omega

theorem rename_file_le (p : RPath) (s : List Char) (dry ok : Bool) (st : Statistics) :
    st.le (rename_file p s dry ok st).2.1 := by
  simp only [rename_file]
  by_cases h : p = new_file_path_buf p s
  · rw [if_pos h]
    exact ⟨Nat.le_succ _, Nat.le_refl _, Nat.le_refl _⟩
  · rw [if_neg h]
    cases dry with
    | true => exact ⟨Nat.le_refl _, Nat.le_refl _, Nat.le_succ _⟩
    | false =>
      cases ok with
      | true =>
        simp only [if_pos rfl]
        exact ⟨Nat.le_refl _, Nat.le_refl _, Nat.le_succ _⟩
      | false =>
        exact ⟨Nat.le_refl _, Nat.le_succ _, Nat.le_refl _⟩

theorem process_media_asset_sum (env : RunEnv) (toff : Option Int) (dry : Bool)
    (acc : Statistics × List FsOp) (path : RPath) :
    (process_media_asset env toff dry acc path).1.sum = acc.1.sum + 1 := by
  cases h : env.openResult path with
  | none =>
    simp [process_media_asset, h, Statistics.sum]
    omega
  | some ms =>
    cases hx : extract_creation_datetime_from_media_source ms with
    | error e =>
      simp [process_media_asset, h, hx, Statistics.sum]
      omega
    | ok dt =>
      simp [process_media_asset, h, hx, rename_file_sum]

theorem process_media_asset_le (env : RunEnv) (toff : Option Int) (dry : Bool)
    (acc : Statistics × List FsOp) (path : RPath) :
    acc.1.le (process_media_asset env toff dry acc path).1 := by
  cases h : env.openResult path with
  | none =>
    simp only [process_media_asset, h]
    exact ⟨Nat.le_refl _, Nat.le_succ _, Nat.le_refl _⟩
  | some ms =>
    cases hx : extract_creation_datetime_from_media_source ms with
    | error e =>
      simp only [process_media_asset, h, hx]
      exact ⟨Nat.le_refl _, Nat.le_succ _, Nat.le_refl _⟩
    | ok dt =>
      simp only [process_media_asset, h, hx]
      exact rename_file_le _ _ _ _ _

theorem process_fold_sum (env : RunEnv) (toff : Option Int) (dry : Bool) (paths : List RPath)
    (acc : Statistics × List FsOp) :
    ((paths.foldl (process_media_asset env toff dry) acc).1).sum = acc.1.sum + paths.length := by
  induction paths generalizing acc with
  | nil => rfl
  | cons p rest ih =>
    rw [List.foldl_cons, ih, process_media_asset_sum]
    simp only [List.length_cons]
    omega

theorem process_fold_le (env : RunEnv) (toff : Option Int) (dry : Bool) (paths : List RPath)
    (acc : Statistics × List FsOp) :
    acc.1.le ((paths.foldl (process_media_asset env toff dry) acc).1) := by
  induction paths generalizing acc with
  | nil => exact Statistics.le_refl _
  | cons p rest ih =>
    rw [List.foldl_cons]
    exact Statistics.le_trans _ _ _ (process_media_asset_le env toff dry acc p) (ih _)

/-! ### Lemmas decomposing `run` -/

theorem run_cwd_fail (options : RamboOptions) (env : RunEnv) (hc : env.cwdOk = false) :
    run options env = (ExitCode.FAILURE, Statistics.new, []) := by
  unfold run
  rw [if_pos hc]

theorem run_invalid_offset (options : RamboOptions) (env : RunEnv) (hc : env.cwdOk = true)
    (hto : parse_time_offset options.time_offset = none) :
    run options env = (ExitCode.FAILURE, Statistics.new, []) := by
  unfold run
  rw [if_neg (by simp [hc]), hto]

theorem run_invalid_pattern (options : RamboOptions) (env : RunEnv) (toff : Option Int)
    (hc : env.cwdOk = true) (hto : parse_time_offset options.time_offset = some toff)
    (hpv : options.patternValid = false) :
    run options env = (ExitCode.FAILURE, Statistics.new, []) := by
  unfold run
  have hev : evaluate_files_from_glob_pattern options.patternValid env.globResults
      options.case_insensitive options.include_symlinks = none := by
    unfold evaluate_files_from_glob_pattern
    rw [if_neg (by simp [hpv])]
  rw [if_neg (by simp [hc]), hto, hev]

theorem run_eq_after_discovery (options : RamboOptions) (env : RunEnv) (toff : Option Int)
    (paths : List RPath) (errors : List GlobEvaluationError) (hc : env.cwdOk = true)
    (hto : parse_time_offset options.time_offset = some toff)
    (hev : evaluate_files_from_glob_pattern options.patternValid env.globResults
      options.case_insensitive options.include_symlinks = some (paths, errors)) :
    run options env = run_after_discovery options env toff paths errors := by
  unfold run
  rw [if_neg (by simp [hc]), hto, hev]

theorem globFold_characterization (include_symlinks : Bool)
    (globResults : List GlobResultEntry) (acc : List RPath × List GlobEvaluationError) :
    globResults.foldl (globFoldStep include_symlinks) acc =
      (acc.1 ++ keptCanonicalPaths include_symlinks globResults,
       acc.2 ++ discoveryErrors include_symlinks globResults) := by
  induction globResults generalizing acc with
  | nil => simp [keptCanonicalPaths, discoveryErrors]
  | cons entry rest ih =>
    simp only [List.foldl_cons]
    cases entry with
    | ok m =>
      by_cases hkeep : (include_symlinks || !m.isSymlink) = true
      · cases hc : m.canonical with
        | some path =>
          simp [globFoldStep, keptCanonicalPaths, discoveryErrors, hkeep, hc, ih]
        | none =>
          simp [globFoldStep, keptCanonicalPaths, discoveryErrors, hkeep, hc, ih]
      · simp only [Bool.or_eq_true, Bool.not_eq_true'] at hkeep
        push_neg at hkeep
        have hincl : include_symlinks = false := Bool.not_eq_true include_symlinks ▸ hkeep.1
        have hsym : m.isSymlink = true := Bool.not_eq_false m.isSymlink ▸ hkeep.2
        subst hincl
        simp [globFoldStep, keptCanonicalPaths, discoveryErrors, hsym, ih]
    | err path =>
      simp [globFoldStep, keptCanonicalPaths, discoveryErrors, ih]

theorem ite_failure_eq_success_iff (n : Nat) :
    (if n > 0 then ExitCode.FAILURE else ExitCode.SUCCESS) = ExitCode.SUCCESS ↔ n = 0 := by
  by_cases h : n > 0
  · simp [h]
    omega
  · simp [h]
    omega

theorem run_after_discovery_exit (options : RamboOptions) (env : RunEnv) (toff : Option Int)
    (paths : List RPath) (errors : List GlobEvaluationError) :
    ((run_after_discovery options env toff paths errors).1 = ExitCode.SUCCESS ↔
      (run_after_discovery options env toff paths errors).2.1.failed_files = 0) := by
  unfold run_after_discovery
  by_cases hp : paths.isEmpty = true
  · by_cases herr : errors.isEmpty = true
    · simp [hp, herr, Statistics.new]
    · simp [hp, herr, Statistics.new]
      intro hnil
      subst hnil
      exact herr rfl
  · simp only [hp, Bool.false_and, Bool.and_self, if_false, Bool.not_true]
    exact ite_failure_eq_success_iff _

/-! ### Claim theorems -/

/-- C1: for every media resource given to the MetadataExtractor: if the
resource exposes EXIF metadata (and the metadata stream parses), extraction
returns the timestamp of the first tag in the fixed order DateTimeOriginal,
OffsetTimeOriginal, CreateDate that is present with a parseable time value,
and fails with the tag-not-found error when that list is exhausted; else if
it exposes track metadata, only CreateDate is probed under the same
first-match-wins rule, failing with the track tag-not-found error when
exhausted; else extraction fails with the no-metadata error. -/
theorem extraction_first_match_dispatch (media_source : MediaSource) :
    (∀ exif, media_source.hasExif = true → media_source.exifParse = some exif →
      extract_creation_datetime_from_media_source media_source =
        match firstParseableTag exif.get EXIF_TAGS_FOR_CREATION_DATETIME with
        | some datetime => Except.ok datetime
        | none => Except.error ExtractionError.TagNotFound)
    ∧ (∀ track_info, media_source.hasExif = false → media_source.hasTrack = true →
      media_source.trackParse = some track_info →
      extract_creation_datetime_from_media_source media_source =
        match firstParseableTag track_info.get TRACK_INFO_TAGS_FOR_CREATION_DATETIME with
        | some datetime => Except.ok datetime
        | none => Except.error ExtractionError.TrackTagNotFound)
    ∧ (media_source.hasExif = false → media_source.hasTrack = false →
      extract_creation_datetime_from_media_source media_source =
        Except.error ExtractionError.NoMetadata) := by
  refine ⟨?_, ?_, ?_⟩
  · intro exif hx hp
    unfold extract_creation_datetime_from_media_source
    rw [if_pos hx, hp]
    exact probeExifTags_eq_firstParseable exif EXIF_TAGS_FOR_CREATION_DATETIME
  · intro track_info hx ht hp
    unfold extract_creation_datetime_from_media_source
    rw [if_neg (by simp [hx]), if_pos ht, hp]
    exact probeTrackTags_eq_firstParseable track_info TRACK_INFO_TAGS_FOR_CREATION_DATETIME
  · intro hx ht
    unfold extract_creation_datetime_from_media_source
    rw [if_neg (by simp [hx]), if_neg (by simp [ht])]

/-- Witness for C1: a resource with both a parseable DateTimeOriginal and a
parseable CreateDate resolves to the DateTimeOriginal value (first-match). -/
theorem extraction_first_match_dispatch_witness :
    extract_creation_datetime_from_media_source
        ⟨true, false, some ⟨some (some ⟨100, 0⟩), some none, some (some ⟨200, 0⟩)⟩, none⟩ =
      Except.ok ⟨100, 0⟩ := by
  have h := (extraction_first_match_dispatch
      ⟨true, false, some ⟨some (some ⟨100, 0⟩), some none, some (some ⟨200, 0⟩)⟩, none⟩).1
      ⟨some (some ⟨100, 0⟩), some none, some (some ⟨200, 0⟩)⟩ rfl rfl
  rw [h]
  rfl

/-- C2 counterexample: for the extensionless source file `x` and desired stem
`A.B`, the first no-dry-run rename moves it to `A.B`, but a second run over
the renamed file constructs target `A.b` (the stem's own `B` is treated as an
extension and lower-cased), so the second outcome is Renamed, not Skipped. -/
theorem rename_idempotence_counterexample :
    (rename_file ⟨"/d/".data, "x".data⟩ "A.B".data false true Statistics.new).1 =
      Outcome.Renamed ∧
    new_file_path_buf ⟨"/d/".data, "x".data⟩ "A.B".data = ⟨"/d/".data, "A.B".data⟩ ∧
    (rename_file ⟨"/d/".data, "A.B".data⟩ "A.B".data false true Statistics.new).1 =
      Outcome.Renamed ∧
    (rename_file ⟨"/d/".data, "A.B".data⟩ "A.B".data false true Statistics.new).1 ≠
      Outcome.Skipped := by
  decide

/-- C2 (amended): if the constructed target path equals the source path
byte-for-byte, the outcome is Skipped with no filesystem call, for both
values of the dry-run flag; and for a nonempty desired stem that is dot-free
or a source with a nonempty extension, a second no-dry-run run over the file
at the constructed target yields Skipped (idempotence). -/
theorem rename_skip_and_idempotence (p : RPath) (s : List Char) (dry ok : Bool)
    (st : Statistics) :
    (new_file_path_buf p s = p →
      rename_file p s dry ok st =
        (Outcome.Skipped, { st with skipped_files := st.skipped_files + 1 }, [])) ∧
    (s ≠ [] → ('.' ∉ s ∨ ∃ e, extOf p.fileName = some e ∧ e ≠ []) →
      ∀ ok2 st2,
        rename_file (new_file_path_buf p s) s false ok2 st2 =
          (Outcome.Skipped, { st2 with skipped_files := st2.skipped_files + 1 }, [])) := by
  constructor
  · intro h
    unfold rename_file
    rw [if_pos h.symm]
  · intro hs hcond ok2 st2
    have hidem := new_file_path_buf_idem p s hs hcond
    unfold rename_file
    rw [if_pos hidem.symm]

/-- Witness for C2: a file already named `2020.jpg` with desired stem `2020`
is Skipped, and the file produced by renaming `Video.MP4` with stem `2020`
is Skipped by a second run. -/
theorem rename_skip_and_idempotence_witness :
    rename_file ⟨"/d/".data, "2020.jpg".data⟩ "2020".data false true Statistics.new =
      (Outcome.Skipped, { Statistics.new with skipped_files := 1 }, []) ∧
    rename_file (new_file_path_buf ⟨"/d/".data, "Video.MP4".data⟩ "2020".data) "2020".data
        false true Statistics.new =
      (Outcome.Skipped, { Statistics.new with skipped_files := 1 }, []) := by
  constructor
  · have h := (rename_skip_and_idempotence ⟨"/d/".data, "2020.jpg".data⟩ "2020".data false true
      Statistics.new).1 (by decide)
    rw [h]
    decide
  · have h := (rename_skip_and_idempotence ⟨"/d/".data, "Video.MP4".data⟩ "2020".data false true
      Statistics.new).2 (by decide) (Or.inl (by decide)) true Statistics.new
    rw [h]
    decide

/-- C3: with the dry-run flag set and a target differing from the source, the
outcome is Renamed with the renamed counter incremented exactly as for a real
successful rename, and no filesystem call is made; a whole pipeline run in
dry-run mode makes zero filesystem calls. -/
theorem dry_run_counts_without_mutation :
    (∀ p s ok st, new_file_path_buf p s ≠ p →
      rename_file p s true ok st =
        (Outcome.Renamed, { st with renamed_files := st.renamed_files + 1 }, []) ∧
      (rename_file p s true ok st).2.1 = (rename_file p s false true st).2.1) ∧
    (∀ options env, options.no_dry_run = false → (run options env).2.2 = []) := by
  constructor
  · intro p s ok st h
    have hne : ¬ p = new_file_path_buf p s := fun hc => h hc.symm
    constructor
    · simp [rename_file, hne]
    · simp [rename_file, hne]
  · intro options env h
    unfold run
    by_cases hc : env.cwdOk = false
    · rw [if_pos hc]
    · rw [if_neg hc]
      cases hpo : parse_time_offset options.time_offset with
      | none => rfl
      | some toff =>
        cases hev : evaluate_files_from_glob_pattern options.patternValid env.globResults
            options.case_insensitive options.include_symlinks with
        | none => rfl
        | some pe =>
          obtain ⟨paths, errors⟩ := pe
          show (run_after_discovery options env toff paths errors).2.2 = []
          unfold run_after_discovery
          by_cases h1 : (paths.isEmpty && errors.isEmpty) = true
          · simp [h1]
          · by_cases h2 : (paths.isEmpty && !errors.isEmpty) = true
            · simp [h1, h2]
            · simp only [h1, h2, if_false, h, Bool.not_false]
              exact process_fold_dry_no_ops env toff (paths.filter env.is_file) _

/-- Witness for C3: a dry-run rename of `a.JPG` to stem `b` is counted and
makes no call, and a concrete dry-run pipeline makes no filesystem calls. -/
theorem dry_run_counts_without_mutation_witness :
    rename_file ⟨"/d/".data, "a.JPG".data⟩ "b".data true false Statistics.new =
      (Outcome.Renamed, { Statistics.new with renamed_files := 1 }, []) ∧
    (run ⟨true, false, false, none, false⟩
      ⟨true, [GlobResultEntry.ok ⟨⟨"/d/".data, "a.JPG".data⟩, false,
        some ⟨"/d/".data, "a.JPG".data⟩⟩],
       fun _ => true, fun _ => none, fun _ => true, fun _ => []⟩).2.2 = [] := by
  constructor
  · have h := (dry_run_counts_without_mutation.1 ⟨"/d/".data, "a.JPG".data⟩ "b".data false
      Statistics.new (by decide)).1
    rw [h]
    decide
  · exact dry_run_counts_without_mutation.2 _ _ rfl

/-- C4 counterexample: for source `a.jpg` and desired stem `b.c`, the
constructed target file name is `b.jpg` — `set_extension` treats the `c` of
the desired stem as an extension and replaces it — so the target's file stem
is `b`, not the desired stem `b.c`. -/
theorem target_path_construction_counterexample :
    new_file_path_buf ⟨"/d/".data, "a.jpg".data⟩ "b.c".data =
      ⟨"/d/".data, "b.jpg".data⟩ ∧
    fileStem "b.jpg".data ≠ "b.c".data := by
  decide

/-- C4 (amended): for every source path and nonempty dot-free desired stem
(a single path component), the target has the source's parent directory; a
source with a nonempty extension yields the desired stem followed by a dot
and the ASCII-lower-cased source extension (so the target's stem is the
desired stem and its extension the lower-cased source extension); a source
with no extension, or with an empty extension (a trailing-dot name, whose
dot is dropped), yields the bare desired stem. -/
theorem target_path_construction (p : RPath) (s : List Char) (hs : s ≠ [])
    (hsd : '.' ∉ s) :
    (new_file_path_buf p s).parent = p.parent ∧
    (extOf p.fileName = none → (new_file_path_buf p s).fileName = s ∧
      extOf (new_file_path_buf p s).fileName = none) ∧
    (∀ e, extOf p.fileName = some e → e ≠ [] →
      (new_file_path_buf p s).fileName = s ++ '.' :: asciiLower e ∧
      fileStem (new_file_path_buf p s).fileName = s ∧
      extOf (new_file_path_buf p s).fileName = some (asciiLower e)) ∧
    (extOf p.fileName = some [] → (new_file_path_buf p s).fileName = s) := by
  refine ⟨?_, ?_, ?_, ?_⟩
  · cases hext : extOf p.fileName with
    | none => rw [new_file_path_buf_of_ext_none p s hext]
    | some e => rw [new_file_path_buf_of_ext_some p s e hext]
  · intro hext
    rw [new_file_path_buf_of_ext_none p s hext]
    exact ⟨rfl, extOf_no_dot_name s hsd⟩
  · intro e hext he
    have hle : asciiLower e ≠ [] := fun hc => he ((asciiLower_eq_nil_iff e).mp hc)
    have hled : '.' ∉ asciiLower e := asciiLower_not_dot e (extOf_no_dot p.fileName e hext)
    rw [new_file_path_buf_of_ext_some p s e hext]
    have hname : setExtName s (asciiLower e) = s ++ '.' :: asciiLower e := by
      rw [setExtName_nonempty s (asciiLower e) hle, fileStem_no_dot s hsd]
    refine ⟨hname, ?_, ?_⟩
    · rw [hname]
      exact fileStem_append s (asciiLower e) hs hled
    · rw [hname]
      exact extOf_append s (asciiLower e) hs hled
  · intro hext
    rw [new_file_path_buf_of_ext_some p s [] hext]
    have : asciiLower [] = [] := rfl
    rw [this, setExtName_nil, fileStem_no_dot s hsd]

/-- Witness for C4: source `Video.MP4` with stem `2020-01-01` yields file
name `2020-01-01.mp4`, with extension `mp4`, never `MP4`. -/
theorem target_path_construction_witness :
    (new_file_path_buf ⟨"/d/".data, "Video.MP4".data⟩ "2020-01-01".data).fileName =
      "2020-01-01.mp4".data ∧
    extOf (new_file_path_buf ⟨"/d/".data, "Video.MP4".data⟩ "2020-01-01".data).fileName =
      some "mp4".data := by
  have h := (target_path_construction ⟨"/d/".data, "Video.MP4".data⟩ "2020-01-01".data
      (by decide) (by decide)).2.2.1 "MP4".data (by decide) (by decide)
  refine ⟨?_, ?_⟩
  · rw [h.1]
    decide
  · rw [h.2.2]
    decide

/-- C5: glob evaluation fails fatally (no partial result) exactly when the
pattern is syntactically invalid; for a valid pattern the result is the pair
of sorted per-entry classifications, where a symlink with includeSymlinks
false contributes to neither list, a kept entry that canonicalizes
contributes its canonical path, a kept entry that fails to canonicalize
contributes one non-fatal discovery error, an underlying glob error
contributes one discovery error, and in every case the remaining entries are
still evaluated. -/
theorem glob_evaluation_classification (patternValid case_insensitive include_symlinks : Bool)
    (globResults : List GlobResultEntry) :
    (evaluate_files_from_glob_pattern patternValid globResults case_insensitive
        include_symlinks = none ↔ patternValid = false) ∧
    (patternValid = true →
      evaluate_files_from_glob_pattern patternValid globResults case_insensitive
          include_symlinks =
        some ((keptCanonicalPaths include_symlinks globResults).mergeSort pathLe,
              (discoveryErrors include_symlinks globResults).mergeSort errLe)) ∧
    (∀ m rest, (include_symlinks || !m.isSymlink) = false →
      keptCanonicalPaths include_symlinks (GlobResultEntry.ok m :: rest) =
        keptCanonicalPaths include_symlinks rest ∧
      discoveryErrors include_symlinks (GlobResultEntry.ok m :: rest) =
        discoveryErrors include_symlinks rest) ∧
    (∀ m rest, (include_symlinks || !m.isSymlink) = true → m.canonical = none →
      keptCanonicalPaths include_symlinks (GlobResultEntry.ok m :: rest) =
        keptCanonicalPaths include_symlinks rest ∧
      discoveryErrors include_symlinks (GlobResultEntry.ok m :: rest) =
        GlobEvaluationError.other m.path :: discoveryErrors include_symlinks rest) ∧
    (∀ m rest cp, (include_symlinks || !m.isSymlink) = true → m.canonical = some cp →
      keptCanonicalPaths include_symlinks (GlobResultEntry.ok m :: rest) =
        cp :: keptCanonicalPaths include_symlinks rest ∧
      discoveryErrors include_symlinks (GlobResultEntry.ok m :: rest) =
        discoveryErrors include_symlinks rest) := by
  refine ⟨?_, ?_, ?_, ?_, ?_⟩
  · cases patternValid with
    | false => simp [evaluate_files_from_glob_pattern]
    | true => simp [evaluate_files_from_glob_pattern]
  · intro hv
    subst hv
    unfold evaluate_files_from_glob_pattern
    rw [if_pos rfl, globFold_characterization]
    simp
  · intro m rest hkeep
    constructor
    · simp [keptCanonicalPaths, hkeep]
    · simp [discoveryErrors, hkeep]
  · intro m rest hkeep hc
    constructor
    · simp [keptCanonicalPaths, hkeep, hc]
    · simp [discoveryErrors, hkeep, hc]
  · intro m rest cp hkeep hc
    constructor
    · simp [keptCanonicalPaths, hkeep, hc]
    · simp [discoveryErrors, hkeep, hc]

/-- Witness for C5: a valid pattern over one canonicalizable match, one
excluded symlink, one canonicalization failure, and one glob error yields the
partial result with the symlink in neither list; an invalid pattern yields
no result. -/
theorem glob_evaluation_classification_witness :
    evaluate_files_from_glob_pattern true
      [GlobResultEntry.ok ⟨⟨"/d/".data, "B.jpg".data⟩, false, some ⟨"/d/".data, "B.jpg".data⟩⟩,
       GlobResultEntry.ok ⟨⟨"/d/".data, "s.jpg".data⟩, true, some ⟨"/d/".data, "s.jpg".data⟩⟩,
       GlobResultEntry.ok ⟨⟨"/d/".data, "x.jpg".data⟩, false, none⟩,
       GlobResultEntry.err ⟨"/d/".data, "a.jpg".data⟩] false false =
      some ([⟨"/d/".data, "B.jpg".data⟩],
            [GlobEvaluationError.globError ⟨"/d/".data, "a.jpg".data⟩,
             GlobEvaluationError.other ⟨"/d/".data, "x.jpg".data⟩]) ∧
    evaluate_files_from_glob_pattern false [] false false = none := by
  constructor
  · rw [(glob_evaluation_classification true false false
      [GlobResultEntry.ok ⟨⟨"/d/".data, "B.jpg".data⟩, false, some ⟨"/d/".data, "B.jpg".data⟩⟩,
       GlobResultEntry.ok ⟨⟨"/d/".data, "s.jpg".data⟩, true, some ⟨"/d/".data, "s.jpg".data⟩⟩,
       GlobResultEntry.ok ⟨⟨"/d/".data, "x.jpg".data⟩, false, none⟩,
       GlobResultEntry.err ⟨"/d/".data, "a.jpg".data⟩]).2.1 rfl]
    have hkept : keptCanonicalPaths false
        [GlobResultEntry.ok ⟨⟨"/d/".data, "B.jpg".data⟩, false, some ⟨"/d/".data, "B.jpg".data⟩⟩,
         GlobResultEntry.ok ⟨⟨"/d/".data, "s.jpg".data⟩, true, some ⟨"/d/".data, "s.jpg".data⟩⟩,
         GlobResultEntry.ok ⟨⟨"/d/".data, "x.jpg".data⟩, false, none⟩,
         GlobResultEntry.err ⟨"/d/".data, "a.jpg".data⟩] = [⟨"/d/".data, "B.jpg".data⟩] := by
      decide
    have herrs : discoveryErrors false
        [GlobResultEntry.ok ⟨⟨"/d/".data, "B.jpg".data⟩, false, some ⟨"/d/".data, "B.jpg".data⟩⟩,
         GlobResultEntry.ok ⟨⟨"/d/".data, "s.jpg".data⟩, true, some ⟨"/d/".data, "s.jpg".data⟩⟩,
         GlobResultEntry.ok ⟨⟨"/d/".data, "x.jpg".data⟩, false, none⟩,
         GlobResultEntry.err ⟨"/d/".data, "a.jpg".data⟩] =
        [GlobEvaluationError.other ⟨"/d/".data, "x.jpg".data⟩,
         GlobEvaluationError.globError ⟨"/d/".data, "a.jpg".data⟩] := by
      decide
    rw [hkept, herrs, List.mergeSort_singleton, mergeSort_pair]
    rw [if_neg (by decide)]
  · exact (glob_evaluation_classification false false false []).1.mpr rfl

/-- C6: the process exit code is SUCCESS exactly when the working directory
is found, the time-offset option is not an invalid string, the pattern is
syntactically valid, and the final failed counter is zero — so it is FAILURE
when the pattern is invalid, when zero matches were found but discovery
errors occurred (failed then counts those errors), or when any item failed. -/
theorem exit_code_characterization (options : RamboOptions) (env : RunEnv) :
    (run options env).1 = ExitCode.SUCCESS ↔
      env.cwdOk = true ∧ options.time_offset ≠ some none ∧
        options.patternValid = true ∧ (run options env).2.1.failed_files = 0 := by
  by_cases hc : env.cwdOk = false
  · rw [run_cwd_fail options env hc]
    simp [hc]
  · have hcw : env.cwdOk = true := Bool.not_eq_false env.cwdOk ▸ hc
    cases hto : options.time_offset with
    | none =>
      have hpo : parse_time_offset options.time_offset = some none := by rw [hto]; rfl
      by_cases hpv : options.patternValid = true
      · have hev : evaluate_files_from_glob_pattern options.patternValid env.globResults
            options.case_insensitive options.include_symlinks =
            some (((env.globResults.foldl (globFoldStep options.include_symlinks)
                ([], [])).1).mergeSort pathLe,
              ((env.globResults.foldl (globFoldStep options.include_symlinks)
                ([], [])).2).mergeSort errLe) := by
          unfold evaluate_files_from_glob_pattern
          rw [if_pos hpv]
        rw [run_eq_after_discovery options env none _ _ hcw hpo hev]
        simp only [hcw, hpv, hto, true_and, ne_eq, reduceCtorEq, not_false_eq_true]
        exact run_after_discovery_exit options env none _ _
      · have hpvf : options.patternValid = false := Bool.not_eq_true options.patternValid ▸ hpv
        rw [run_invalid_pattern options env none hcw hpo hpvf]
        simp [hpvf]
    | some inner =>
      cases inner with
      | none =>
        have hpo : parse_time_offset options.time_offset = none := by rw [hto]; rfl
        rw [run_invalid_offset options env hcw hpo]
        simp [hto]
      | some o =>
        have hpo : parse_time_offset options.time_offset = some (some o) := by rw [hto]; rfl
        by_cases hpv : options.patternValid = true
        · have hev : evaluate_files_from_glob_pattern options.patternValid env.globResults
              options.case_insensitive options.include_symlinks =
              some (((env.globResults.foldl (globFoldStep options.include_symlinks)
                  ([], [])).1).mergeSort pathLe,
                ((env.globResults.foldl (globFoldStep options.include_symlinks)
                  ([], [])).2).mergeSort errLe) := by
            unfold evaluate_files_from_glob_pattern
            rw [if_pos hpv]
          rw [run_eq_after_discovery options env (some o) _ _ hcw hpo hev]
          simp only [hcw, hpv, hto, true_and, ne_eq, Option.some.injEq, reduceCtorEq,
            not_false_eq_true]
          exact run_after_discovery_exit options env (some o) _ _
        · have hpvf : options.patternValid = false := Bool.not_eq_true options.patternValid ▸ hpv
          rw [run_invalid_pattern options env (some o) hcw hpo hpvf]
          simp [hpvf]

/-- C7: for every pattern evaluation that returns a result, both output
lists are sorted ascending by the ASCII-lower-cased path string, so the
ordering is deterministic and case-insensitive. -/
theorem output_lists_sorted (patternValid case_insensitive include_symlinks : Bool)
    (globResults : List GlobResultEntry) (paths : List RPath)
    (errors : List GlobEvaluationError)
    (h : evaluate_files_from_glob_pattern patternValid globResults case_insensitive
        include_symlinks = some (paths, errors)) :
    paths.Pairwise (fun a b => pathLe a b = true) ∧
    errors.Pairwise (fun a b => errLe a b = true) := by
  unfold evaluate_files_from_glob_pattern at h
  by_cases hv : patternValid = true
  · rw [if_pos hv] at h
    simp only [Option.some_inj, Prod.mk.injEq] at h
    obtain ⟨h1, h2⟩ := h
    subst h1
    subst h2
    exact ⟨List.sorted_mergeSort pathLe_trans pathLe_total _,
      List.sorted_mergeSort errLe_trans errLe_total _⟩
  · rw [if_neg hv] at h
    simp at h

/-- Witness for C7: paths `B.jpg` and `a.JPG` in the same directory are
reported in the order `a.JPG`, `B.jpg`, and the result is sorted. -/
theorem output_lists_sorted_witness :
    evaluate_files_from_glob_pattern true
      [GlobResultEntry.ok ⟨⟨"/d/".data, "B.jpg".data⟩, false, some ⟨"/d/".data, "B.jpg".data⟩⟩,
       GlobResultEntry.ok ⟨⟨"/d/".data, "a.JPG".data⟩, false, some ⟨"/d/".data, "a.JPG".data⟩⟩]
      false false =
      some ([⟨"/d/".data, "a.JPG".data⟩, ⟨"/d/".data, "B.jpg".data⟩], []) ∧
    List.Pairwise (fun a b => pathLe a b = true)
      [(⟨"/d/".data, "a.JPG".data⟩ : RPath), ⟨"/d/".data, "B.jpg".data⟩] := by
  have h1 : evaluate_files_from_glob_pattern true
      [GlobResultEntry.ok ⟨⟨"/d/".data, "B.jpg".data⟩, false, some ⟨"/d/".data, "B.jpg".data⟩⟩,
       GlobResultEntry.ok ⟨⟨"/d/".data, "a.JPG".data⟩, false, some ⟨"/d/".data, "a.JPG".data⟩⟩]
      false false =
      some ([⟨"/d/".data, "a.JPG".data⟩, ⟨"/d/".data, "B.jpg".data⟩], []) := by
    unfold evaluate_files_from_glob_pattern
    rw [if_pos rfl]
    have hfold : ([GlobResultEntry.ok ⟨⟨"/d/".data, "B.jpg".data⟩, false,
          some ⟨"/d/".data, "B.jpg".data⟩⟩,
        GlobResultEntry.ok ⟨⟨"/d/".data, "a.JPG".data⟩, false,
          some ⟨"/d/".data, "a.JPG".data⟩⟩].foldl (globFoldStep false) ([], [])) =
        ([⟨"/d/".data, "B.jpg".data⟩, ⟨"/d/".data, "a.JPG".data⟩], []) := by
      decide
    rw [hfold]
    show some (List.mergeSort [⟨"/d/".data, "B.jpg".data⟩, ⟨"/d/".data, "a.JPG".data⟩] pathLe,
        List.mergeSort ([] : List GlobEvaluationError) errLe) =
      some ([⟨"/d/".data, "a.JPG".data⟩, ⟨"/d/".data, "B.jpg".data⟩], [])
    rw [mergeSort_pair, List.mergeSort_nil]
    rw [if_neg (by decide)]
  exact ⟨h1, (output_lists_sorted true false false _ _ _ h1).1⟩

/-- C8: for every extracted timestamp, a configured override replaces the
embedded offset while keeping the instant — shifting the displayed local
clock by the offset difference — and no override leaves the timestamp
unchanged; the orchestrator's per-item step renders the template on exactly
the override-adjusted timestamp before invoking the rename engine. -/
theorem time_offset_override_applied (datetime : DateTime) (offset : Int) :
    apply_time_offset (some offset) datetime = ⟨datetime.instant, offset⟩ ∧
    (apply_time_offset (some offset) datetime).localClock =
      datetime.localClock + (offset - datetime.offset) ∧
    apply_time_offset none datetime = datetime ∧
    (∀ env toff dry acc path media_source, env.openResult path = some media_source →
      extract_creation_datetime_from_media_source media_source = Except.ok datetime →
      process_media_asset env toff dry acc path =
        ((rename_file path (env.fmt (apply_time_offset toff datetime)) dry
            (env.renameOk path) acc.1).2.1,
         acc.2 ++ (rename_file path (env.fmt (apply_time_offset toff datetime)) dry
            (env.renameOk path) acc.1).2.2)) := by
  refine ⟨rfl, ?_, rfl, ?_⟩
  · simp only [apply_time_offset, DateTime.with_timezone, DateTime.localClock]
    omega
  · intro env toff dry acc path media_source hopen hex
    simp [process_media_asset, hopen, hex]

/-- Witness for C8: a timestamp with embedded offset +00:00 under override
+05:00 (18000 seconds) has its displayed clock shifted by five hours, and a
concrete pipeline step renders the adjusted timestamp. -/
theorem time_offset_override_applied_witness :
    (apply_time_offset (some 18000) ⟨0, 0⟩).localClock = 18000 ∧
    process_media_asset
      ⟨true, [], fun _ => true,
       fun _ => some ⟨true, false, some ⟨some (some ⟨0, 0⟩), none, none⟩, none⟩,
       fun _ => true, fun _ => "t".data⟩
      (some 18000) true (Statistics.new, []) ⟨"/d/".data, "a.jpg".data⟩ =
      ((rename_file ⟨"/d/".data, "a.jpg".data⟩ "t".data true true Statistics.new).2.1,
       [] ++ (rename_file ⟨"/d/".data, "a.jpg".data⟩ "t".data true true
          Statistics.new).2.2) := by
  constructor
  · rw [(time_offset_override_applied ⟨0, 0⟩ 18000).2.1]
    decide
  · exact (time_offset_override_applied ⟨0, 0⟩ 18000).2.2.2
      ⟨true, [], fun _ => true,
       fun _ => some ⟨true, false, some ⟨some (some ⟨0, 0⟩), none, none⟩, none⟩,
       fun _ => true, fun _ => "t".data⟩
      (some 18000) true (Statistics.new, []) ⟨"/d/".data, "a.jpg".data⟩
      ⟨true, false, some ⟨some (some ⟨0, 0⟩), none, none⟩, none⟩ rfl rfl

theorem c9env_evaluate :
    evaluate_files_from_glob_pattern true c9env.globResults false false =
      some ([⟨"/d/".data, "a.jpg".data⟩], []) := by
  unfold evaluate_files_from_glob_pattern
  rw [if_pos rfl]
  have hfold : (c9env.globResults.foldl (globFoldStep false) ([], [])) =
      ([⟨"/d/".data, "a.jpg".data⟩], []) := by
    decide
  rw [hfold]
  show some (List.mergeSort [⟨"/d/".data, "a.jpg".data⟩] pathLe,
      List.mergeSort ([] : List GlobEvaluationError) errLe) =
    some ([⟨"/d/".data, "a.jpg".data⟩], [])
  rw [List.mergeSort_singleton, List.mergeSort_nil]

/-- C9 counterexample: a run over one discovered plain file whose open fails
ends with counter sum 1, but zero items entered the rename stage and there
were zero discovery errors, so the claimed bound (sum ≤ rename-stage items +
discovery errors) fails. -/
theorem statistics_sum_bound_counterexample :
    (run c9options c9env).2.1.sum = 1 ∧
    renameStageCount c9env [⟨"/d/".data, "a.jpg".data⟩] = 0 ∧
    discoveryErrors false c9env.globResults = [] ∧
    ¬((run c9options c9env).2.1.sum ≤
        renameStageCount c9env [⟨"/d/".data, "a.jpg".data⟩] +
          (discoveryErrors false c9env.globResults).length) := by
  have hrun : run c9options c9env =
      run_after_discovery c9options c9env none [⟨"/d/".data, "a.jpg".data⟩] [] :=
    run_eq_after_discovery c9options c9env none _ _ rfl rfl c9env_evaluate
  rw [hrun]
  decide

/-- C9 (amended): the counters start at zero at run start; each item that
reaches a counted terminal outcome (open failure, extraction failure, or a
rename outcome) has exactly one counter incremented exactly once, never
decreasing any counter; the final sum equals the number of discovery errors
plus the number of discovered plain-file items (filtered-out non-files
increment nothing), and never exceeds the number of discovered paths plus
the number of discovery errors. -/
theorem statistics_accounting :
    Statistics.new.sum = 0 ∧
    (∀ env toff dry acc path, acc.1.le (process_media_asset env toff dry acc path).1 ∧
      (process_media_asset env toff dry acc path).1.sum = acc.1.sum + 1) ∧
    (∀ (options : RamboOptions) (env : RunEnv) (toff : Option Int) paths errors,
      env.cwdOk = true → parse_time_offset options.time_offset = some toff →
      evaluate_files_from_glob_pattern options.patternValid env.globResults
        options.case_insensitive options.include_symlinks = some (paths, errors) →
      (run options env).2.1.sum =
        (if (paths.isEmpty && errors.isEmpty) = true then 0
         else errors.length + (paths.filter env.is_file).length) ∧
      (run options env).2.1.sum ≤ paths.length + errors.length) := by
  refine ⟨rfl, ?_, ?_⟩
  · intro env toff dry acc path
    exact ⟨process_media_asset_le env toff dry acc path,
      process_media_asset_sum env toff dry acc path⟩
  · intro options env toff paths errors hc hto hev
    rw [run_eq_after_discovery options env toff paths errors hc hto hev]
    unfold run_after_discovery
    by_cases h1 : (paths.isEmpty && errors.isEmpty) = true
    · rw [if_pos h1]
      have herr : errors.isEmpty = true := by
        rcases Bool.and_eq_true_iff.mp h1 with ⟨_, h⟩
        exact h
      rw [if_neg (by simp [herr])]
      simp [h1, Statistics.new, Statistics.sum]
    · rw [if_neg h1]
      by_cases h2 : (paths.isEmpty && !errors.isEmpty) = true
      · rw [if_pos h2]
        rcases Bool.and_eq_true_iff.mp h2 with ⟨hpe, hne⟩
        have hne2 : errors.isEmpty = false := by
          revert hne
          cases errors.isEmpty with
          | false => intro _; rfl
          | true => intro hcon; exact absurd hcon (by simp)
        have hpaths : paths = [] := List.isEmpty_iff.mp hpe
        subst hpaths
        rw [if_pos (by simp [hne2])]
        have herrne : errors ≠ [] := by
          intro hnil
          subst hnil
          exact absurd hne2 (by simp)
        constructor
        · simp [h1, Statistics.new, Statistics.sum, herrne]
        · simp [Statistics.new, Statistics.sum]
      · rw [if_neg h2]
        have hsum := process_fold_sum env toff (!options.no_dry_run)
          (paths.filter env.is_file)
          ((if !errors.isEmpty then
              { Statistics.new with
                  failed_files := Statistics.new.failed_files + errors.length }
            else Statistics.new), [])
        constructor
        · rw [if_neg h1]
          simp only at hsum
          rw [hsum]
          by_cases herr : errors.isEmpty = true
          · rw [if_neg (by simp [herr])]
            simp [Statistics.new, Statistics.sum]
            have : errors = [] := List.isEmpty_iff.mp herr
            subst this
            simp
          · have herr2 : errors.isEmpty = false := by
              revert herr
              cases errors.isEmpty with
              | false => intro _; rfl
              | true => intro hcon; exact absurd rfl hcon
            rw [if_pos (by simp [herr2])]
            simp [Statistics.new, Statistics.sum]
        · simp only at hsum
          rw [hsum]
          have hfle : (paths.filter env.is_file).length ≤ paths.length :=
            List.length_filter_le env.is_file paths
          by_cases herr : errors.isEmpty = true
          · rw [if_neg (by simp [herr])]
            simp only [Statistics.new, Statistics.sum]
            omega
          · have herr2 : errors.isEmpty = false := by
              revert herr
              cases errors.isEmpty with
              | false => intro _; rfl
              | true => intro hcon; exact absurd rfl hcon
            rw [if_pos (by simp [herr2])]
            simp only [Statistics.new, Statistics.sum]
            omega

/-- Witness for C9: for the concrete one-open-failure run, the final sum is
the one plain-file item plus zero discovery errors, within the bound. -/
theorem statistics_accounting_witness :
    (run c9options c9env).2.1.sum = 1 ∧ (run c9options c9env).2.1.sum ≤ 1 + 0 := by
  have h := statistics_accounting.2.2 c9options c9env none
    [⟨"/d/".data, "a.jpg".data⟩] [] rfl rfl c9env_evaluate
  constructor
  · rw [h.1]
    decide
  · have h2 := h.2
    simpa using h2

/-- C10 counterexample: file `a.b.JPG` whose Rust file stem `a.b` equals the
desired stem and whose extension `JPG` is uppercase is indeed Renamed, but
the constructed target is `a.jpg`, not `a.b.jpg`: the rename does not change
only the extension's case — it also truncates the stem. -/
theorem extension_case_only_counterexample :
    (rename_file ⟨"/d/".data, "a.b.JPG".data⟩ "a.b".data false true Statistics.new).1 =
      Outcome.Renamed ∧
    fileStem "a.b.JPG".data = "a.b".data ∧
    new_file_path_buf ⟨"/d/".data, "a.b.JPG".data⟩ "a.b".data =
      ⟨"/d/".data, "a.jpg".data⟩ ∧
    (new_file_path_buf ⟨"/d/".data, "a.b.JPG".data⟩ "a.b".data).fileName ≠
      "a.b.jpg".data := by
  decide

/-- C10 (amended): for every file whose name is a nonempty stem, a dot, and a
nonempty dot-free extension containing an uppercase ASCII letter, with the
desired stem equal to the file's stem, the constructed target differs from
the source, so the outcome is never Skipped and is Renamed in dry-run mode
and on a successful real rename; when the stem is additionally dot-free the
rename changes only the extension's case; and a subsequent run over the
resulting file is Skipped. -/
theorem uppercase_extension_renamed (par s e : List Char) (ok : Bool) (st : Statistics)
    (hs : s ≠ []) (he : e ≠ []) (hed : '.' ∉ e) (c : Char) (hc : c ∈ e)
    (hcup : 65 ≤ c.toNat ∧ c.toNat ≤ 90) :
    new_file_path_buf ⟨par, s ++ '.' :: e⟩ s ≠ ⟨par, s ++ '.' :: e⟩ ∧
    (∀ dry2 ok2, (rename_file ⟨par, s ++ '.' :: e⟩ s dry2 ok2 st).1 ≠ Outcome.Skipped) ∧
    (rename_file ⟨par, s ++ '.' :: e⟩ s true ok st).1 = Outcome.Renamed ∧
    (rename_file ⟨par, s ++ '.' :: e⟩ s false true st).1 = Outcome.Renamed ∧
    ('.' ∉ s →
      (new_file_path_buf ⟨par, s ++ '.' :: e⟩ s).fileName = s ++ '.' :: asciiLower e) ∧
    (∀ ok2 st2, (rename_file (new_file_path_buf ⟨par, s ++ '.' :: e⟩ s) s false ok2 st2).1 =
      Outcome.Skipped) := by
  have hup : asciiLower e ≠ e := asciiLower_ne_of_mem_upper e c hc hcup
  have hext : extOf (s ++ '.' :: e) = some e := extOf_append s e hs hed
  have hle : asciiLower e ≠ [] := fun hnil => he ((asciiLower_eq_nil_iff e).mp hnil)
  have htarget : new_file_path_buf ⟨par, s ++ '.' :: e⟩ s =
      ⟨par, fileStem s ++ '.' :: asciiLower e⟩ := by
    rw [new_file_path_buf_of_ext_some ⟨par, s ++ '.' :: e⟩ s e hext,
      setExtName_nonempty s (asciiLower e) hle]
  have hne : new_file_path_buf ⟨par, s ++ '.' :: e⟩ s ≠ ⟨par, s ++ '.' :: e⟩ := by
    rw [htarget]
    intro hcon
    have hname : fileStem s ++ '.' :: asciiLower e = s ++ '.' :: e := congrArg RPath.fileName hcon
    have hlen : (fileStem s).length = s.length := by
      have := congrArg List.length hname
      simp only [List.length_append, List.length_cons, asciiLower_length] at this
      omega
    rcases List.append_inj hname hlen with ⟨_, htl⟩
    have : asciiLower e = e := by
      injection htl
    exact hup this
  refine ⟨hne, ?_, ?_, ?_, ?_, ?_⟩
  · intro dry2 ok2
    have hnp : ¬ (⟨par, s ++ '.' :: e⟩ : RPath) = new_file_path_buf ⟨par, s ++ '.' :: e⟩ s :=
      fun hcon => hne hcon.symm
    simp only [rename_file]
    rw [if_neg hnp]
    cases dry2 with
    | true => simp
    | false =>
      cases ok2 with
      | true => simp
      | false => simp
  · have hnp : ¬ (⟨par, s ++ '.' :: e⟩ : RPath) = new_file_path_buf ⟨par, s ++ '.' :: e⟩ s :=
      fun hcon => hne hcon.symm
    simp [rename_file, hnp]
  · have hnp : ¬ (⟨par, s ++ '.' :: e⟩ : RPath) = new_file_path_buf ⟨par, s ++ '.' :: e⟩ s :=
      fun hcon => hne hcon.symm
    simp [rename_file, hnp]
  · intro hsd
    rw [htarget, fileStem_no_dot s hsd]
  · intro ok2 st2
    have hidem := new_file_path_buf_idem ⟨par, s ++ '.' :: e⟩ s hs (Or.inr ⟨e, hext, he⟩)
    simp only [rename_file]
    rw [if_pos hidem.symm]

/-- Witness for C10: `2020-01-01.JPG` with desired stem `2020-01-01` is
Renamed (its target is `2020-01-01.jpg`), and the subsequent run over the
target is Skipped. -/
theorem uppercase_extension_renamed_witness :
    (rename_file ⟨"/d/".data, "2020-01-01.JPG".data⟩ "2020-01-01".data false true
        Statistics.new).1 = Outcome.Renamed ∧
    (rename_file (new_file_path_buf ⟨"/d/".data, "2020-01-01.JPG".data⟩ "2020-01-01".data)
        "2020-01-01".data false true Statistics.new).1 = Outcome.Skipped := by
  have h := uppercase_extension_renamed "/d/".data "2020-01-01".data "JPG".data false
    Statistics.new (by decide) (by decide) (by decide) 'J' (by decide) (by decide)
  exact ⟨h.2.2.2.1, h.2.2.2.2.2 true Statistics.new⟩

end Rambo
